import Mathlib

/-!
Verification development for the CertCreate repository.

Shallow embedding of `src/profanity_filter.py` (text normalization and
blocked-content detection) and `src/data_store.py` (the JSON-file certificate
ledger), together with theorems settling the specification claims.

Modelling conventions:
* Python strings are Lean `String`s; character-level work happens on `List Char`.
* Python `str.lower()` is modelled per character by `Char.toLower` (ASCII
  lowercasing; the blocked vocabulary and the letters-only filter are ASCII, so
  Unicode special casing is irrelevant to every property proved here).
* Python dicts that the code builds key-by-key are association lists in
  insertion order; assignment replaces in place or appends at the end, exactly
  as a Python dict's iteration order behaves.
* `datetime.now()` is an ambient input, passed as an explicit `now` argument.
* Reading the persisted JSON file is modelled by `ReadOutcome`: the file may be
  missing, unreadable (an `IOError` during read), unparseable (corrupt), or
  readable with a parsed document.
-/

namespace CertCreate

/-! ## profanity_filter.py -/

/-- `BLOCKED_WORDS` from src/profanity_filter.py, in source listing order.
(The Python object is a `set`; its iteration order is implementation defined.
Every theorem below that depends on which word is reported only concerns inputs
for which exactly one blocked word can match, so the listing order is
immaterial.) -/
def BLOCKED_WORDS : List String := [
  "ass", "arse", "asshole", "bastard", "bitch", "bloody", "bollocks",
  "bugger", "bullshit", "crap", "damn", "dick", "dickhead",
  "fag", "faggot", "fuck", "fucking", "fucker", "goddam", "goddamn",
  "hell", "homo", "jerk", "moron", "nigger", "nigga", "piss", "prick",
  "pussy", "retard", "shit", "shitty", "slut", "twat", "wanker", "whore",
  "nazi", "hitler", "kkk", "racist",
  "anal", "boob", "boobs", "breast", "cock", "cum", "dildo", "penis",
  "porn", "sex", "sexy", "vagina", "xxx",
  "cocaine", "heroin", "meth", "crack",
  "kill", "murder", "rape", "terrorist"]

/-- `LEET_SPEAK_MAP` from src/profanity_filter.py, in source listing order. -/
def LEET_SPEAK_MAP : List (Char × Char) :=
  [('0', 'o'), ('1', 'i'), ('3', 'e'), ('4', 'a'), ('5', 's'), ('7', 't'),
   ('8', 'b'), ('@', 'a'), ('$', 's'), ('!', 'i'), ('+', 't')]

/-- The loop `for leet_char, normal_char in LEET_SPEAK_MAP.items():
normalized = normalized.replace(leet_char, normal_char)`.  Each
`str.replace` of a single character by a single character is a character map
over the string, and the loop applies them in sequence. -/
def applyLeet (cs : List Char) : List Char :=
  LEET_SPEAK_MAP.foldl (fun s p => s.map (fun c => if c = p.1 then p.2 else c)) cs

/-- The character class of `re.sub(r'[^a-z]', '', ·)`: keep `a`-`z` only. -/
def isAlphaLower (c : Char) : Bool := 'a' ≤ c && c ≤ 'z'

/-- Character-level body of `normalize_text`: lowercase, apply the leet map,
strip everything that is not a lowercase Latin letter. -/
def normalizeChars (cs : List Char) : List Char :=
  (applyLeet (cs.map Char.toLower)).filter isAlphaLower

/-- `normalize_text` from src/profanity_filter.py.  The `if not text` guard
returns `""` for empty input; a `None` argument is handled by
`normalize_text_opt` below. -/
def normalize_text (text : String) : String :=
  if text = "" then "" else String.mk (normalizeChars text.data)

/-- `normalize_text` applied to a possibly-`None` argument: Python's
`if not text` treats `None` like the empty string. -/
def normalize_text_opt : Option String → String
  | none => ""
  | some s => normalize_text s

/-- Boolean test that `xs` begins with `needle` (used to model Python's
substring operator). -/
def isPre : List Char → List Char → Bool
  | [], _ => true
  | _ :: _, [] => false
  | a :: as, b :: bs => a == b && isPre as bs

/-- Python's `needle in hay` substring test on character lists. -/
def containsSub (needle : List Char) : List Char → Bool
  | [] => needle.isEmpty
  | c :: rest => isPre needle (c :: rest) || containsSub needle rest

/-- Python's no-argument `str.split()`, first phase: split at every single
whitespace character, keeping empty chunks. -/
def pySplitAll : List Char → List (List Char)
  | [] => [[]]
  | c :: rest =>
    if c.isWhitespace then [] :: pySplitAll rest
    else
      match pySplitAll rest with
      | [] => [[c]]
      | w :: ws => (c :: w) :: ws

/-- Python's no-argument `str.split()`: the nonempty maximal runs between
whitespace. -/
def pySplit (cs : List Char) : List (List Char) :=
  (pySplitAll cs).filter (fun w => !w.isEmpty)

/-- `contains_profanity` from src/profanity_filter.py: first the whole-text
substring scan over the normalized input, then the per-word exact check over
the whitespace-split lowercased input. -/
def contains_profanity (text : String) : Bool × Option String :=
  if text = "" then (false, none)
  else
    let normalized := normalize_text text
    match BLOCKED_WORDS.find? (fun w => containsSub w.data normalized.data) with
    | some w => (true, some w)
    | none =>
      let words := pySplit (text.data.map Char.toLower)
      match words.find?
          (fun w => decide (normalize_text (String.mk w) ∈ BLOCKED_WORDS)) with
      | some w => (true, some (normalize_text (String.mk w)))
      | none => (false, none)

/-- `check_all_fields` from src/profanity_filter.py.  Python's `**fields` is an
insertion-ordered mapping; it is passed here as an association list in that
order. -/
def check_all_fields : List (String × String) → Bool × Option String × Option String
  | [] => (true, none, none)
  | (field_name, text) :: rest =>
    let res := contains_profanity text
    if res.1 then (false, some field_name, res.2)
    else check_all_fields rest

/-! ## data_store.py -/

/-- The `region` entry of a persisted school-certificate dict.  A JSON object
read back by `_load_data` may lack the key altogether (`absent`), hold JSON
`null` (`null`, what Python's `None` serializes to), or hold a string.
`record_school_certificate` always writes the key, so it only ever produces
`null` or `value`. -/
inductive RegionField
  | absent
  | null
  | value (s : String)
deriving DecidableEq, Repr

/-- A value of `data['school_certificates']`: the dict literal written by
`record_school_certificate` (`school_name`, `region`, `date`). -/
structure SchoolRec where
  school_name : String
  region : RegionField
  date : String
deriving DecidableEq, Repr

/-- A value of `data['student_certificates']`: the dict literal written by
`record_student_certificate` (`school_name`, `date`). -/
structure StudentRec where
  school_name : String
  date : String
deriving DecidableEq, Repr

/-- The persisted JSON document: two id-keyed dicts plus the nested `stats`
object, flattened.  Dicts are association lists in insertion order. -/
structure DataDoc where
  school_certificates : List (String × SchoolRec)
  student_certificates : List (String × StudentRec)
  total_school_certificates : Nat
  total_student_certificates : Nat
deriving DecidableEq, Repr

/-- Python `d.get(k)` / `k in d` on an insertion-ordered dict. -/
def dget {β : Type} : List (String × β) → String → Option β
  | [], _ => none
  | p :: rest, k => if p.1 = k then some p.2 else dget rest k

/-- Python `d[k] = v` on an insertion-ordered dict: replace in place when the
key is present, append at the end otherwise. -/
def dset {β : Type} : List (String × β) → String → β → List (String × β)
  | [], k, v => [(k, v)]
  | p :: rest, k, v => if p.1 = k then (k, v) :: rest else p :: dset rest k v

/-- The outcome of attempting to read the persisted file inside `_load_data`. -/
inductive ReadOutcome
  | missing
  | ioError
  | corrupt
  | ok (d : DataDoc)

/-- The default structure `_load_data` returns when there is nothing usable. -/
def defaultData : DataDoc :=
  { school_certificates := []
    student_certificates := []
    total_school_certificates := 0
    total_student_certificates := 0 }

/-- `_load_data` from src/data_store.py: return the parsed document when the
read and the parse succeed; on a missing file, on `json.JSONDecodeError`
(corrupt) or on `IOError` (read failure), fall through to the default
structure.  Note the `except (json.JSONDecodeError, IOError)` clause catches
both failure kinds identically. -/
def load_data : ReadOutcome → DataDoc
  | .ok d => d
  | _ => defaultData

/-- How `record_school_certificate` stores its `region` argument: Python `None`
becomes JSON `null`; the key is always written. -/
def regionOfOpt : Option String → RegionField
  | none => .null
  | some s => .value s

/-- `record_school_certificate` from src/data_store.py, acting on a loaded
document (`now` is `datetime.now().isoformat()`).  The id's entry is assigned
and `stats['total_school_certificates']` is set to the dict's length. -/
def record_school_certificate (data : DataDoc) (cert_id school_name : String)
    (region : Option String) (now : String) : DataDoc :=
  let m := dset data.school_certificates cert_id
    { school_name := school_name, region := regionOfOpt region, date := now }
  { data with school_certificates := m, total_school_certificates := m.length }

/-- `record_student_certificate` from src/data_store.py, acting on a loaded
document. -/
def record_student_certificate (data : DataDoc) (cert_id school_name : String)
    (now : String) : DataDoc :=
  let m := dset data.student_certificates cert_id
    { school_name := school_name, date := now }
  { data with student_certificates := m, total_student_certificates := m.length }

/-- `cert_data.get('region', 'Unknown')`: the `'Unknown'` default applies only
when the key is absent; a stored `null` yields Python `None`. -/
def regionGetD : RegionField → Option String
  | .absent => some "Unknown"
  | .null => none
  | .value s => some s

/-- `cert_data.get('region')`: absent key and stored `null` both yield `None`. -/
def regionGet : RegionField → Option String
  | .absent => none
  | .null => none
  | .value s => some s

/-- `country_counts[country] = country_counts.get(country, 0) + 1`. -/
def bump (m : List (String × Nat)) (k : String) : List (String × Nat) :=
  dset m k ((dget m k).getD 0 + 1)

/-- The `country_counts` loop of `get_stats`: count each record under
`cert_data.get('region', 'Unknown')` when that value is truthy (not `None`,
not the empty string); otherwise skip the record. -/
def countryCounts (recs : List (String × SchoolRec)) : List (String × Nat) :=
  recs.foldl (fun acc p =>
    match regionGetD p.2.region with
    | some c => if c = "" then acc else bump acc c
    | none => acc) []

/-- The four fixed keys of the `region_counts` dict literal in `get_stats`. -/
def regionNames : List String := ["England", "Wales", "Northern Ireland", "Scotland"]

/-- The `region_counts` loop of `get_stats`: starting from the zero-filled
fixed dict, increment a record's region only when it is one of the dict's
keys (`if region in region_counts`). -/
def fixedRegionCounts (recs : List (String × SchoolRec)) : List (String × Nat) :=
  recs.foldl (fun acc p =>
    match regionGet p.2.region with
    | some region => if (dget acc region).isSome then bump acc region else acc
    | none => acc) (regionNames.map (fun r => (r, 0)))

/-- `round((count / total) * 100, 1)`, in tenths of a percent.  The exact
rational `1000 * count / total` is rounded half-to-even to an integer number of
tenths.  (Python computes the quotient in binary floating point before
rounding; the model rounds the exact rational instead.) -/
def pctTenths (count total : Nat) : Nat :=
  let num := 1000 * count
  let q := num / total
  let r := num % total
  if 2 * r < total then q
  else if total < 2 * r then q + 1
  else if q % 2 = 0 then q else q + 1

/-- The dict returned by `get_stats`: the copied stored totals plus the four
computed breakdown dicts.  Percentage values are in tenths of a percent. -/
structure Stats where
  total_school_certificates : Nat
  total_student_certificates : Nat
  countries : List (String × Nat)
  country_percentages : List (String × Nat)
  regions : List (String × Nat)
  region_percentages : List (String × Nat)
deriving DecidableEq, Repr

/-- `get_stats` from src/data_store.py, acting on a loaded document. -/
def get_stats (data : DataDoc) : Stats :=
  let country_counts := countryCounts data.school_certificates
  let total := data.total_school_certificates
  let country_percentages :=
    if total > 0 then country_counts.map (fun p => (p.1, pctTenths p.2 total))
    else []
  let region_counts := fixedRegionCounts data.school_certificates
  let region_percentages :=
    if total > 0 then region_counts.map (fun p => (p.1, pctTenths p.2 total))
    else region_counts.map (fun p => (p.1, 0))
  { total_school_certificates := data.total_school_certificates
    total_student_certificates := data.total_student_certificates
    countries := country_counts
    country_percentages := country_percentages
    regions := region_counts
    region_percentages := region_percentages }

/-- The result of `get_certificate_info`: the record found, tagged with
`'type': 'school'` or `'type': 'student'`. -/
inductive CertInfo
  | school (r : SchoolRec)
  | student (r : StudentRec)
deriving DecidableEq, Repr

/-- `get_certificate_info` from src/data_store.py, acting on a loaded
document: school certificates are checked before student certificates. -/
def get_certificate_info (data : DataDoc) (cert_id : String) : Option CertInfo :=
  match dget data.school_certificates cert_id with
  | some r => some (.school r)
  | none =>
    match dget data.student_certificates cert_id with
    | some r => some (.student r)
    | none => none

/-! The public operations each load the document afresh (under the lock) and,
for the mutators, save the updated document.  The `_io` forms make the read
outcome explicit. -/

/-- `record_school_certificate` including its internal `_load_data` call; the
result is the document handed to `_save_data`. -/
def record_school_certificate_io (st : ReadOutcome) (cert_id school_name : String)
    (region : Option String) (now : String) : DataDoc :=
  record_school_certificate (load_data st) cert_id school_name region now

/-- `record_student_certificate` including its internal `_load_data` call. -/
def record_student_certificate_io (st : ReadOutcome) (cert_id school_name : String)
    (now : String) : DataDoc :=
  record_student_certificate (load_data st) cert_id school_name now

/-- `get_stats` including its internal `_load_data` call. -/
def get_stats_io (st : ReadOutcome) : Stats :=
  get_stats (load_data st)

/-- `get_certificate_info` including its internal `_load_data` call. -/
def get_certificate_info_io (st : ReadOutcome) (cert_id : String) : Option CertInfo :=
  get_certificate_info (load_data st) cert_id

/-- One recorded call of the public mutating API. -/
inductive LedgerOp
  | school (cert_id school_name : String) (region : Option String) (date : String)
  | student (cert_id school_name : String) (date : String)
deriving DecidableEq, Repr

/-- Apply one mutating call to the persisted document. -/
def applyOp (data : DataDoc) : LedgerOp → DataDoc
  | .school cert_id school_name region date =>
    record_school_certificate data cert_id school_name region date
  | .student cert_id school_name date =>
    record_student_certificate data cert_id school_name date

/-- The persisted document after a sequence of mutating calls starting from
the empty ledger (each call reads back exactly what the previous call saved). -/
def runOps (ops : List LedgerOp) : DataDoc :=
  ops.foldl applyOp defaultData

/-! ## Character-level lemmas about normalization -/

/-- The effect of the whole leet-replacement loop on one character. -/
def applyLeetChar (c : Char) : Char :=
  LEET_SPEAK_MAP.foldl (fun a p => if a = p.1 then p.2 else a) c

theorem foldl_charmap (pairs : List (Char × Char)) (cs : List Char) :
    pairs.foldl (fun s p => s.map (fun c => if c = p.1 then p.2 else c)) cs
      = cs.map (fun c => pairs.foldl (fun a p => if a = p.1 then p.2 else a) c) := by
  induction pairs generalizing cs with
  | nil => simp
  | cons p ps ih =>
    simp only [List.foldl_cons]
    rw [ih, List.map_map]
    rfl

theorem applyLeet_eq_map (cs : List Char) : applyLeet cs = cs.map applyLeetChar :=
  foldl_charmap _ _

theorem isAlphaLower_iff {c : Char} :
    isAlphaLower c = true ↔ 97 ≤ c.toNat ∧ c.toNat ≤ 122 := by
  simp [isAlphaLower, Char.le_def, UInt32.le_def, BitVec.le_def, Char.toNat,
    UInt32.toNat]

theorem toNat_ofNat_valid {n : Nat} (h : n < 55296) : (Char.ofNat n).toNat = n := by
  rw [Char.ofNat, dif_pos (Or.inl h)]; rfl

theorem toLower_eq_of_not {c : Char} (h : ¬(65 ≤ c.toNat ∧ c.toNat ≤ 90)) :
    Char.toLower c = c := by
  unfold Char.toLower
  rw [if_neg (by simpa [ge_iff_le] using h)]

theorem toLower_eq_self {c : Char} (h : 97 ≤ c.toNat) : Char.toLower c = c :=
  toLower_eq_of_not (by omega)

theorem toNat_toLower_of_upper {c : Char} (h : 65 ≤ c.toNat ∧ c.toNat ≤ 90) :
    (Char.toLower c).toNat = c.toNat + 32 := by
  unfold Char.toLower
  rw [if_pos (by simpa [ge_iff_le] using h)]
  exact toNat_ofNat_valid (by omega)

theorem toLower_toLower (c : Char) :
    Char.toLower (Char.toLower c) = Char.toLower c := by
  by_cases h : 65 ≤ c.toNat ∧ c.toNat ≤ 90
  · exact toLower_eq_self (by rw [toNat_toLower_of_upper h]; omega)
  · rw [toLower_eq_of_not h, toLower_eq_of_not h]

theorem applyLeetChar_eq_self {c : Char} (h : 97 ≤ c.toNat) : applyLeetChar c = c := by
  have h0 : c ≠ '0' := by intro e; subst e; exact absurd h (by decide)
  have h1 : c ≠ '1' := by intro e; subst e; exact absurd h (by decide)
  have h3 : c ≠ '3' := by intro e; subst e; exact absurd h (by decide)
  have h4 : c ≠ '4' := by intro e; subst e; exact absurd h (by decide)
  have h5 : c ≠ '5' := by intro e; subst e; exact absurd h (by decide)
  have h7 : c ≠ '7' := by intro e; subst e; exact absurd h (by decide)
  have h8 : c ≠ '8' := by intro e; subst e; exact absurd h (by decide)
  have ha : c ≠ '@' := by intro e; subst e; exact absurd h (by decide)
  have hd : c ≠ '$' := by intro e; subst e; exact absurd h (by decide)
  have hb : c ≠ '!' := by intro e; subst e; exact absurd h (by decide)
  have hp : c ≠ '+' := by intro e; subst e; exact absurd h (by decide)
  simp [applyLeetChar, LEET_SPEAK_MAP, h0, h1, h3, h4, h5, h7, h8, ha, hd, hb, hp]

theorem normalizeChars_append (xs ys : List Char) :
    normalizeChars (xs ++ ys) = normalizeChars xs ++ normalizeChars ys := by
  simp [normalizeChars, applyLeet_eq_map, List.filter_append]

theorem mem_normalizeChars {c : Char} {cs : List Char} (h : c ∈ normalizeChars cs) :
    isAlphaLower c = true :=
  (List.mem_filter.mp h).2

theorem normalizeChars_of_alphaLower {cs : List Char}
    (h : ∀ c ∈ cs, isAlphaLower c = true) : normalizeChars cs = cs := by
  have hnat : ∀ c ∈ cs, 97 ≤ c.toNat := fun c hc => (isAlphaLower_iff.mp (h c hc)).1
  unfold normalizeChars
  rw [applyLeet_eq_map]
  have hmap : cs.map Char.toLower = cs := by
    rw [show cs.map Char.toLower = cs.map id from
      List.map_congr_left (fun c hc => toLower_eq_self (hnat c hc)), List.map_id]
  rw [hmap]
  have hmap2 : cs.map applyLeetChar = cs := by
    rw [show cs.map applyLeetChar = cs.map id from
      List.map_congr_left (fun c hc => applyLeetChar_eq_self (hnat c hc)), List.map_id]
  rw [hmap2]
  exact List.filter_eq_self.mpr h

theorem normalizeChars_idem (cs : List Char) :
    normalizeChars (normalizeChars cs) = normalizeChars cs :=
  normalizeChars_of_alphaLower (fun _ hc => mem_normalizeChars hc)

theorem normalizeChars_map_toLower (cs : List Char) :
    normalizeChars (cs.map Char.toLower) = normalizeChars cs := by
  unfold normalizeChars
  rw [List.map_map]
  have : cs.map (Char.toLower ∘ Char.toLower) = cs.map Char.toLower :=
    List.map_congr_left (fun c _ => toLower_toLower c)
  rw [this]

/-! ## Substring and word-split lemmas -/

theorem isPre_append_self (n t : List Char) : isPre n (n ++ t) = true := by
  induction n with
  | nil => rfl
  | cons c cs ih => simp [isPre, ih]

theorem containsSub_nil_needle (h : List Char) : containsSub [] h = true := by
  cases h <;> simp [containsSub, isPre]

theorem containsSub_self_append (n t : List Char) : containsSub n (n ++ t) = true := by
  cases n with
  | nil => exact containsSub_nil_needle t
  | cons c cs =>
    show containsSub (c :: cs) (c :: (cs ++ t)) = true
    simp [containsSub, isPre, isPre_append_self]

theorem containsSub_of_mid (s n t : List Char) : containsSub n (s ++ (n ++ t)) = true := by
  induction s with
  | nil => simpa using containsSub_self_append n t
  | cons c cs ih => simp [containsSub, ih]

theorem pySplitAll_decomp (cs : List Char) :
    (∀ w ∈ pySplitAll cs, ∃ s t, cs = s ++ (w ++ t)) ∧
    (∃ h t, pySplitAll cs = h :: t ∧ ∃ r, cs = h ++ r) := by
  induction cs with
  | nil =>
    refine ⟨?_, [], [], rfl, [], rfl⟩
    intro w hw
    simp [pySplitAll] at hw
    subst hw
    exact ⟨[], [], rfl⟩
  | cons c rest ih =>
    by_cases hws : c.isWhitespace
    · constructor
      · intro w hw
        simp only [pySplitAll, if_pos hws, List.mem_cons] at hw
        rcases hw with rfl | hw
        · exact ⟨[], c :: rest, rfl⟩
        · obtain ⟨s, t, rfl⟩ := ih.1 w hw
          exact ⟨c :: s, t, rfl⟩
      · exact ⟨[], pySplitAll rest, by simp [pySplitAll, if_pos hws], c :: rest, rfl⟩
    · obtain ⟨h, t, heq, r, hr⟩ := ih.2
      have hsplit : pySplitAll (c :: rest) = (c :: h) :: t := by
        simp [pySplitAll, if_neg hws, heq]
      constructor
      · intro w hw
        rw [hsplit] at hw
        rcases List.mem_cons.mp hw with rfl | hw
        · exact ⟨[], r, by simp [hr]⟩
        · obtain ⟨s, t2, hst⟩ := ih.1 w (by rw [heq]; exact List.mem_cons_of_mem h hw)
          exact ⟨c :: s, t2, by simp [hst]⟩
      · exact ⟨c :: h, t, hsplit, r, by simp [hr]⟩

theorem pySplit_decomp {w cs : List Char} (hw : w ∈ pySplit cs) :
    ∃ s t, cs = s ++ (w ++ t) :=
  (pySplitAll_decomp cs).1 w (List.mem_filter.mp hw).1

theorem pySplit_ne_nil {w cs : List Char} (hw : w ∈ pySplit cs) : w ≠ [] := by
  have := (List.mem_filter.mp hw).2
  intro e
  subst e
  simp at this

/-- Every blocked word is a nonempty string of lowercase letters. -/
theorem blocked_words_facts :
    ∀ t ∈ BLOCKED_WORDS, t.data ≠ [] ∧ ∀ c ∈ t.data, isAlphaLower c = true := by
  decide

theorem normalize_text_data {x : String} (hx : x ≠ "") :
    (normalize_text x).data = normalizeChars x.data := by
  rw [normalize_text, if_neg hx]

/-! ## Claims about the content filter -/

/-- C5: `normalize` is idempotent — `normalize(normalize(x)) == normalize(x)`
for every text `x` — and empty or null input normalizes to the empty string
(the null case through `normalize_text_opt`). -/
theorem claim_C5 :
    (∀ x : String, normalize_text (normalize_text x) = normalize_text x) ∧
    normalize_text_opt none = "" ∧ normalize_text "" = "" ∧
    (∀ o : Option String,
      normalize_text_opt (some (normalize_text_opt o)) = normalize_text_opt o) := by
  have key : ∀ x : String, normalize_text (normalize_text x) = normalize_text x := by
    intro x
    by_cases hx : x = ""
    · subst hx; rfl
    · have hval : normalize_text x = String.mk (normalizeChars x.data) := by
        rw [normalize_text, if_neg hx]
      rw [hval]
      by_cases h2 : String.mk (normalizeChars x.data) = ""
      · rw [normalize_text, if_pos h2]
        exact h2.symm
      · rw [normalize_text, if_neg h2]
        exact congrArg String.mk (normalizeChars_idem x.data)
  refine ⟨key, rfl, rfl, ?_⟩
  intro o
  cases o with
  | none => rfl
  | some s => exact key s

/-- C6: for every blocked term `t` and all strings `a`, `b` of letters,
`containsBlockedContent(a + t + b)` reports a match, and the leet examples
`"5h1t"` → `"shit"` and `"h3ll0"` → `"hell"` hold. -/
theorem claim_C6 :
    (∀ t a b : String, t ∈ BLOCKED_WORDS →
      (∀ c ∈ a.data, c.isAlpha = true) → (∀ c ∈ b.data, c.isAlpha = true) →
      (contains_profanity (a ++ t ++ b)).1 = true) ∧
    contains_profanity "5h1t" = (true, some "shit") ∧
    contains_profanity "h3ll0" = (true, some "hell") := by
  refine ⟨?_, by decide, by decide⟩
  intro t a b ht _ _
  obtain ⟨hne, halpha⟩ := blocked_words_facts t ht
  have htext : a ++ t ++ b ≠ "" := by
    intro e
    have hd : (a ++ t ++ b).data = [] := by rw [e]
    rw [String.data_append, String.data_append] at hd
    exact hne (List.append_eq_nil.mp (List.append_eq_nil.mp hd).1).2
  have hsub : containsSub t.data (normalize_text (a ++ t ++ b)).data = true := by
    rw [normalize_text_data htext]
    have hd : (a ++ t ++ b).data = a.data ++ (t.data ++ b.data) := by
      rw [String.data_append, String.data_append, List.append_assoc]
    rw [hd, normalizeChars_append, normalizeChars_append,
      normalizeChars_of_alphaLower halpha]
    exact containsSub_of_mid _ _ _
  cases hfind : BLOCKED_WORDS.find?
      (fun w => containsSub w.data (normalize_text (a ++ t ++ b)).data) with
  | none => exact absurd hsub (List.find?_eq_none.mp hfind t ht)
  | some w =>
    have hval : contains_profanity (a ++ t ++ b) = (true, some w) := by
      simp only [contains_profanity, if_neg htext]
      rw [hfind]
    rw [hval]

/-- Witness for C6: the spec's own example, `"bullyfuckville"` split as
`"bully" + "fuck" + "ville"`. -/
theorem claim_C6_witness :
    "fuck" ∈ BLOCKED_WORDS ∧
    (contains_profanity ("bully" ++ "fuck" ++ "ville")).1 = true :=
  ⟨by decide, claim_C6.1 "fuck" "bully" "ville" (by decide) (by decide) (by decide)⟩

/-- C7: `checkFields` iterates the fields in their given order, returns the
first field failing `containsBlockedContent` without checking the rest, and
returns `(true, none, none)` when every field is clean; in particular
`checkFields({a: "Clean Name", b: "fuckface"})` returns `(false, "b", "fuck")`. -/
theorem claim_C7 :
    (∀ (pre post : List (String × String)) (name text : String),
      (∀ q ∈ pre, (contains_profanity q.2).1 = false) →
      (contains_profanity text).1 = true →
      check_all_fields (pre ++ (name, text) :: post) =
        (false, some name, (contains_profanity text).2)) ∧
    (∀ fields, (∀ q ∈ fields, (contains_profanity q.2).1 = false) →
      check_all_fields fields = (true, none, none)) ∧
    check_all_fields [("a", "Clean Name"), ("b", "fuckface")] =
      (false, some "b", some "fuck") := by
  refine ⟨?_, ?_, by decide⟩
  · intro pre post name text hpre htext
    induction pre with
    | nil => simp [check_all_fields, htext]
    | cons q qs ih =>
      obtain ⟨qn, qt⟩ := q
      have hq := hpre (qn, qt) (List.mem_cons_self _ _)
      simp only [List.cons_append, check_all_fields, hq, Bool.false_eq_true, if_false]
      exact ih (fun r hr => hpre r (List.mem_cons_of_mem _ hr))
  · intro fields hall
    induction fields with
    | nil => rfl
    | cons q qs ih =>
      obtain ⟨qn, qt⟩ := q
      have hq := hall (qn, qt) (List.mem_cons_self _ _)
      simp only [check_all_fields, hq, Bool.false_eq_true, if_false]
      exact ih (fun r hr => hall r (List.mem_cons_of_mem _ hr))

/-- Witness for C7: the first conjunct applied at the spec's two-field
example, with one clean field before the offending one. -/
theorem claim_C7_witness :
    check_all_fields ([("a", "Clean Name")] ++ ("b", "fuckface") :: []) =
      (false, some "b", (contains_profanity "fuckface").2) :=
  claim_C7.1 [("a", "Clean Name")] [] "b" "fuckface" (by decide) (by decide)

/-- The claim's comparison definition (from its words, not from the code):
the whole-text substring check alone — some blocked term is a substring of the
normalized text. -/
def substringCheckOnly (text : String) : Bool :=
  BLOCKED_WORDS.any (fun w => containsSub w.data (normalize_text text).data)

/-- C10: the boolean verdict of `contains_profanity` equals the whole-text
substring check alone; the per-word pass never changes the outcome, because
normalization distributes over the whitespace split, so a word normalizing to
a blocked term already places that term as a substring of the normalized
whole text. -/
theorem claim_C10 (text : String) :
    (contains_profanity text).1 = substringCheckOnly text := by
  by_cases hx : text = ""
  · subst hx; decide
  · cases hfind : BLOCKED_WORDS.find?
        (fun w => containsSub w.data (normalize_text text).data) with
    | some w =>
      have hL : contains_profanity text = (true, some w) := by
        simp only [contains_profanity, if_neg hx]
        rw [hfind]
      have hR : substringCheckOnly text = true := by
        unfold substringCheckOnly
        rw [List.any_eq_true]
        have hp := List.find?_some hfind
        exact ⟨w, List.mem_of_find?_eq_some hfind, hp⟩
      rw [hL, hR]
    | none =>
      have hR : substringCheckOnly text = false := by
        unfold substringCheckOnly
        rw [List.any_eq_false]
        intro x hxm
        exact List.find?_eq_none.mp hfind x hxm
      cases hw : (pySplit (text.data.map Char.toLower)).find?
          (fun w => decide (normalize_text (String.mk w) ∈ BLOCKED_WORDS)) with
      | none =>
        have hL : contains_profanity text = (false, none) := by
          simp only [contains_profanity, if_neg hx]
          rw [hfind, hw]
        rw [hL, hR]
      | some w =>
        exfalso
        have hwmem := List.mem_of_find?_eq_some hw
        have hp := List.find?_some hw
        have hmem2 : normalize_text (String.mk w) ∈ BLOCKED_WORDS :=
          of_decide_eq_true hp
        have hwne : w ≠ [] := pySplit_ne_nil hwmem
        have hwne' : String.mk w ≠ "" := by
          intro e
          exact hwne (congrArg String.data e)
        obtain ⟨s, t, hst⟩ := pySplit_decomp hwmem
        apply List.find?_eq_none.mp hfind _ hmem2
        show containsSub (normalize_text (String.mk w)).data
          (normalize_text text).data = true
        rw [normalize_text_data hwne', normalize_text_data hx]
        have hdec : normalizeChars text.data
            = normalizeChars s ++ (normalizeChars w ++ normalizeChars t) := by
          rw [← normalizeChars_map_toLower text.data, hst,
            normalizeChars_append, normalizeChars_append]
        rw [hdec]
        exact containsSub_of_mid _ _ _

/-! ## Association-list dictionary lemmas -/

theorem dget_dset_self {β : Type} (m : List (String × β)) (k : String) (v : β) :
    dget (dset m k v) k = some v := by
  induction m with
  | nil => simp [dget, dset]
  | cons p rest ih =>
    by_cases h : p.1 = k
    · simp [dset, h, dget]
    · simp [dset, h, dget, ih]

theorem dget_dset_ne {β : Type} (m : List (String × β)) {k k' : String} (v : β)
    (h : k' ≠ k) : dget (dset m k v) k' = dget m k' := by
  have h' : ¬ k = k' := fun e => h e.symm
  induction m with
  | nil => simp [dget, dset, h']
  | cons p rest ih =>
    by_cases hp : p.1 = k
    · subst hp
      have h2 : ¬ p.1 = k' := h'
      simp [dset, dget, h2]
    · simp [dset, hp, dget, ih]

theorem keys_dset {β : Type} (m : List (String × β)) (k : String) (v : β) :
    (dset m k v).map Prod.fst
      = if (dget m k).isSome then m.map Prod.fst else m.map Prod.fst ++ [k] := by
  induction m with
  | nil => simp [dget, dset]
  | cons p rest ih =>
    by_cases h : p.1 = k
    · simp [dset, h, dget]
    · simp [dset, h, dget, ih]
      split <;> rfl

theorem length_dset {β : Type} (m : List (String × β)) (k : String) (v : β) :
    (dset m k v).length
      = if (dget m k).isSome then m.length else m.length + 1 := by
  induction m with
  | nil => simp [dget, dset]
  | cons p rest ih =>
    by_cases h : p.1 = k
    · simp [dset, h, dget]
    · simp [dset, h, dget, ih]
      split <;> rfl

theorem dget_eq_none_iff {β : Type} (m : List (String × β)) (k : String) :
    dget m k = none ↔ k ∉ m.map Prod.fst := by
  induction m with
  | nil => simp [dget]
  | cons p rest ih =>
    rw [List.map_cons, List.mem_cons]
    by_cases h : p.1 = k
    · subst h
      simp [dget]
    · have hne : ¬ k = p.1 := fun e => h e.symm
      simp [dget, h, hne, ih]

theorem nodup_keys_dset {β : Type} {m : List (String × β)} {k : String} {v : β}
    (h : (m.map Prod.fst).Nodup) : ((dset m k v).map Prod.fst).Nodup := by
  rw [keys_dset]
  by_cases hk : (dget m k).isSome
  · rw [if_pos hk]; exact h
  · rw [if_neg hk]
    have hnot : k ∉ m.map Prod.fst :=
      (dget_eq_none_iff m k).mp (Option.not_isSome_iff_eq_none.mp hk)
    rw [List.nodup_append]
    exact ⟨h, List.nodup_singleton k, List.disjoint_singleton.mpr hnot⟩

theorem mem_dset {β : Type} {m : List (String × β)} {k : String} {v : β}
    {p : String × β} (h : p ∈ dset m k v) : p ∈ m ∨ p = (k, v) := by
  induction m with
  | nil =>
    simp [dset] at h
    exact Or.inr h
  | cons q rest ih =>
    by_cases hq : q.1 = k
    · simp only [dset, if_pos hq, List.mem_cons] at h
      rcases h with rfl | h
      · exact Or.inr rfl
      · exact Or.inl (List.mem_cons_of_mem q h)
    · simp only [dset, if_neg hq, List.mem_cons] at h
      rcases h with rfl | h
      · exact Or.inl (List.mem_cons_self _ _)
      · rcases ih h with hm | he
        · exact Or.inl (List.mem_cons_of_mem q hm)
        · exact Or.inr he

/-! ## Ledger invariants and claims -/

/-- The consistency invariant every reachable persisted document satisfies:
the stored totals equal the dict sizes and the ids are pairwise distinct. -/
def GoodDoc (d : DataDoc) : Prop :=
  d.total_school_certificates = d.school_certificates.length ∧
  d.total_student_certificates = d.student_certificates.length ∧
  (d.school_certificates.map Prod.fst).Nodup ∧
  (d.student_certificates.map Prod.fst).Nodup

theorem goodDoc_applyOp {d : DataDoc} (h : GoodDoc d) (op : LedgerOp) :
    GoodDoc (applyOp d op) := by
  obtain ⟨h1, h2, h3, h4⟩ := h
  cases op with
  | school cert_id school_name region date =>
    exact ⟨rfl, h2, nodup_keys_dset h3, h4⟩
  | student cert_id school_name date =>
    exact ⟨h1, rfl, h3, nodup_keys_dset h4⟩

theorem goodDoc_runOps (ops : List LedgerOp) : GoodDoc (runOps ops) := by
  suffices h : ∀ d, GoodDoc d → GoodDoc (ops.foldl applyOp d) from
    h defaultData ⟨rfl, rfl, List.nodup_nil, List.nodup_nil⟩
  induction ops with
  | nil => intro d h; exact h
  | cons op rest ih =>
    intro d h
    exact ih _ (goodDoc_applyOp h op)

/-- C3: along every sequence of record calls from the empty ledger, an
existing id is silently overwritten with the new record (the operations are
total — there is no error path), the reported totals always equal the number
of entries of the corresponding mapping, those entries' ids are pairwise
distinct, and re-recording an existing id leaves the entry count unchanged. -/
theorem claim_C3 (ops : List LedgerOp) :
    ((get_stats (runOps ops)).total_school_certificates
        = (runOps ops).school_certificates.length ∧
      ((runOps ops).school_certificates.map Prod.fst).Nodup ∧
      (get_stats (runOps ops)).total_student_certificates
        = (runOps ops).student_certificates.length ∧
      ((runOps ops).student_certificates.map Prod.fst).Nodup) ∧
    (∀ cert_id school_name region now,
      dget ((record_school_certificate (runOps ops)
          cert_id school_name region now).school_certificates) cert_id
        = some { school_name := school_name, region := regionOfOpt region, date := now }) ∧
    (∀ cert_id school_name now,
      dget ((record_student_certificate (runOps ops)
          cert_id school_name now).student_certificates) cert_id
        = some { school_name := school_name, date := now }) ∧
    (∀ cert_id school_name region now,
      (dget (runOps ops).school_certificates cert_id).isSome →
      (record_school_certificate (runOps ops)
          cert_id school_name region now).school_certificates.length
        = (runOps ops).school_certificates.length) ∧
    (∀ cert_id school_name now,
      (dget (runOps ops).student_certificates cert_id).isSome →
      (record_student_certificate (runOps ops)
          cert_id school_name now).student_certificates.length
        = (runOps ops).student_certificates.length) := by
  obtain ⟨h1, h2, h3, h4⟩ := goodDoc_runOps ops
  refine ⟨⟨h1, h3, h2, h4⟩, ?_, ?_, ?_, ?_⟩
  · intro cert_id school_name region now
    exact dget_dset_self _ _ _
  · intro cert_id school_name now
    exact dget_dset_self _ _ _
  · intro cert_id school_name region now hin
    show (dset (runOps ops).school_certificates cert_id _).length = _
    rw [length_dset, if_pos hin]
  · intro cert_id school_name now hin
    show (dset (runOps ops).student_certificates cert_id _).length = _
    rw [length_dset, if_pos hin]

/-- Witness for C3: re-recording id `"id1"` after one record of `"id1"` leaves
the school mapping's size unchanged. -/
theorem claim_C3_witness :
    (dget (runOps [LedgerOp.school "id1" "Oak" (some "Wales") "d1"]).school_certificates
        "id1").isSome = true ∧
    (record_school_certificate (runOps [LedgerOp.school "id1" "Oak" (some "Wales") "d1"])
        "id1" "Elm" none "d2").school_certificates.length
      = (runOps [LedgerOp.school "id1" "Oak" (some "Wales") "d1"]).school_certificates.length :=
  ⟨by decide,
   (claim_C3 [LedgerOp.school "id1" "Oak" (some "Wales") "d1"]).2.2.2.1
     "id1" "Elm" none "d2" (by decide)⟩

theorem mem_school_foldl (ops : List LedgerOp) :
    ∀ (d : DataDoc) (p : String × SchoolRec),
      p ∈ (ops.foldl applyOp d).school_certificates →
      p ∈ d.school_certificates ∨
      ∃ cert_id school_name region date,
        LedgerOp.school cert_id school_name region date ∈ ops ∧
        p = (cert_id,
          { school_name := school_name, region := regionOfOpt region, date := date }) := by
  induction ops with
  | nil => intro d p h; exact Or.inl h
  | cons op rest ih =>
    intro d p h
    rw [List.foldl_cons] at h
    rcases ih (applyOp d op) p h with hmem | ⟨ci, sn, r, dt, hop, hp⟩
    · cases op with
      | school ci sn r dt =>
        rcases mem_dset hmem with hm | he
        · exact Or.inl hm
        · exact Or.inr ⟨ci, sn, r, dt, List.mem_cons_self _ _, he⟩
      | student ci sn dt =>
        exact Or.inl hmem
    · exact Or.inr ⟨ci, sn, r, dt, List.mem_cons_of_mem op hop, hp⟩

theorem mem_student_foldl (ops : List LedgerOp) :
    ∀ (d : DataDoc) (p : String × StudentRec),
      p ∈ (ops.foldl applyOp d).student_certificates →
      p ∈ d.student_certificates ∨
      ∃ cert_id school_name date,
        LedgerOp.student cert_id school_name date ∈ ops ∧
        p = (cert_id, { school_name := school_name, date := date }) := by
  induction ops with
  | nil => intro d p h; exact Or.inl h
  | cons op rest ih =>
    intro d p h
    rw [List.foldl_cons] at h
    rcases ih (applyOp d op) p h with hmem | ⟨ci, sn, dt, hop, hp⟩
    · cases op with
      | student ci sn dt =>
        rcases mem_dset hmem with hm | he
        · exact Or.inl hm
        · exact Or.inr ⟨ci, sn, dt, List.mem_cons_self _ _, he⟩
      | school ci sn r dt =>
        exact Or.inl hmem
    · exact Or.inr ⟨ci, sn, dt, List.mem_cons_of_mem op hop, hp⟩

/-- C9: after every sequence of record calls from the empty ledger, every
persisted school entry is exactly the `{school_name, region, date}` dict built
from some `recordSchoolCertificate` call's arguments, and every student entry
exactly the `{school_name, date}` dict of some `recordStudentCertificate`
call; the operations accept only a certificate id, a school name, a region
(school kind only) and the timestamp — no teacher or student name exists
anywhere in the persisted document (`SchoolRec`/`StudentRec` carry exactly the
stored fields). -/
theorem claim_C9 (ops : List LedgerOp) :
    (∀ p ∈ (runOps ops).school_certificates,
      ∃ cert_id school_name region date,
        LedgerOp.school cert_id school_name region date ∈ ops ∧
        p = (cert_id,
          { school_name := school_name, region := regionOfOpt region, date := date })) ∧
    (∀ p ∈ (runOps ops).student_certificates,
      ∃ cert_id school_name date,
        LedgerOp.student cert_id school_name date ∈ ops ∧
        p = (cert_id, { school_name := school_name, date := date })) := by
  constructor
  · intro p hp
    rcases mem_school_foldl ops defaultData p hp with hm | hex
    · exact absurd hm (List.not_mem_nil p)
    · exact hex
  · intro p hp
    rcases mem_student_foldl ops defaultData p hp with hm | hex
    · exact absurd hm (List.not_mem_nil p)
    · exact hex

/-- Witness for C9: the single stored entry of a one-call history is traced
back to that call's arguments. -/
theorem claim_C9_witness :
    ∃ cert_id school_name region date,
      LedgerOp.school cert_id school_name region date
          ∈ [LedgerOp.school "id1" "Oak" (some "Wales") "d1"] ∧
      (("id1", ⟨"Oak", RegionField.value "Wales", "d1"⟩) : String × SchoolRec)
        = (cert_id,
          { school_name := school_name, region := regionOfOpt region, date := date }) :=
  (claim_C9 [LedgerOp.school "id1" "Oak" (some "Wales") "d1"]).1 _ (by decide)

/-- C8: an unparseable persisted document is treated exactly like a missing
one — every ledger operation proceeds from the empty structure (empty
mappings, zero totals).  All the embedded operations are total functions, so
no error reaches the caller. -/
theorem claim_C8 :
    load_data ReadOutcome.corrupt = defaultData ∧
    defaultData.school_certificates = [] ∧
    defaultData.student_certificates = [] ∧
    defaultData.total_school_certificates = 0 ∧
    defaultData.total_student_certificates = 0 ∧
    (∀ cert_id school_name region now,
      record_school_certificate_io ReadOutcome.corrupt cert_id school_name region now
        = record_school_certificate_io ReadOutcome.missing cert_id school_name region now) ∧
    (∀ cert_id school_name now,
      record_student_certificate_io ReadOutcome.corrupt cert_id school_name now
        = record_student_certificate_io ReadOutcome.missing cert_id school_name now) ∧
    get_stats_io ReadOutcome.corrupt = get_stats defaultData ∧
    (∀ cert_id, get_certificate_info_io ReadOutcome.corrupt cert_id
        = get_certificate_info defaultData cert_id) :=
  ⟨rfl, rfl, rfl, rfl, rfl, fun _ _ _ _ => rfl, fun _ _ _ => rfl, rfl, fun _ => rfl⟩

/-- C2 counterexample: a read I/O failure (`IOError`) is *not* surfaced as a
hard failure — `_load_data` catches it together with `JSONDecodeError`, so the
operation proceeds from the empty structure exactly as for a corrupt
document, and the recording applies in full (the new total is 1). -/
theorem claim_C2_counterexample :
    load_data ReadOutcome.ioError = load_data ReadOutcome.corrupt ∧
    load_data ReadOutcome.ioError = defaultData ∧
    record_student_certificate_io ReadOutcome.ioError "id1" "Oak" "d1"
      = record_student_certificate_io ReadOutcome.missing "id1" "Oak" "d1" ∧
    (record_student_certificate_io ReadOutcome.ioError "id1" "Oak"
        "d1").total_student_certificates = 1 :=
  ⟨rfl, rfl, rfl, rfl⟩

/-- C2 amended: a read I/O failure during any ledger operation is silently
recovered exactly like corruption — the operation treats the document as
absent and proceeds from the empty structure with no error to the caller
(only write failures in `_save_data` propagate). -/
theorem claim_C2_amended :
    load_data ReadOutcome.ioError = defaultData ∧
    (∀ cert_id school_name region now,
      record_school_certificate_io ReadOutcome.ioError cert_id school_name region now
        = record_school_certificate_io ReadOutcome.missing cert_id school_name region now) ∧
    (∀ cert_id school_name now,
      record_student_certificate_io ReadOutcome.ioError cert_id school_name now
        = record_student_certificate_io ReadOutcome.missing cert_id school_name now) ∧
    get_stats_io ReadOutcome.ioError = get_stats_io ReadOutcome.missing ∧
    (∀ cert_id, get_certificate_info_io ReadOutcome.ioError cert_id
        = get_certificate_info_io ReadOutcome.missing cert_id) :=
  ⟨rfl, fun _ _ _ _ => rfl, fun _ _ _ => rfl, rfl, fun _ => rfl⟩

/-! ## The region breakdown of `get_stats` (claims C1 and C4) -/

/-- The number of school records whose `get('region', 'Unknown')` value is the
string `s`. -/
def regionCount (recs : List (String × SchoolRec)) (s : String) : Nat :=
  recs.countP (fun p => decide (regionGetD p.2.region = some s))

theorem countryFold_dget (recs : List (String × SchoolRec)) :
    ∀ (acc : List (String × Nat)) (s : String), s ≠ "" →
      dget (recs.foldl (fun acc p =>
          match regionGetD p.2.region with
          | some c => if c = "" then acc else bump acc c
          | none => acc) acc) s
        = (if regionCount recs s = 0 then dget acc s
           else some ((dget acc s).getD 0 + regionCount recs s)) := by
  induction recs with
  | nil =>
    intro acc s hs
    simp [regionCount]
  | cons p rest ih =>
    intro acc s hs
    rw [List.foldl_cons]
    have hcount : regionCount (p :: rest) s
        = regionCount rest s + (if regionGetD p.2.region = some s then 1 else 0) := by
      simp [regionCount, List.countP_cons]
    cases hr : regionGetD p.2.region with
    | none =>
      simp only [hr]
      rw [ih acc s hs, hcount, hr]
      simp
    | some c =>
      by_cases hc : c = ""
      · subst hc
        simp only [hr, if_true]
        rw [ih acc s hs, hcount, hr]
        have hne : ¬ (some "" = some s) := by
          intro e
          exact hs (Option.some.inj e).symm
        simp [hne]
      · by_cases hcs : c = s
        · subst hcs
          simp only [hr]
          rw [if_neg hc]
          rw [ih (bump acc c) c hs, hcount, hr]
          rw [show dget (bump acc c) c = some ((dget acc c).getD 0 + 1) from
            dget_dset_self _ _ _]
          simp only [if_pos rfl, Option.getD_some]
          by_cases h0 : regionCount rest c = 0
          · simp [h0]
          · simp [h0]
            omega
        · simp only [hr]
          rw [if_neg hc]
          rw [ih (bump acc c) s hs, hcount, hr]
          have hgets : dget (bump acc c) s = dget acc s :=
            dget_dset_ne _ _ (fun e => hcs e.symm)
          have hne : ¬ (some c = some s) := fun e => hcs (Option.some.inj e)
          rw [hgets]
          simp [hne]

theorem countryFold_dget_empty (recs : List (String × SchoolRec)) :
    ∀ acc : List (String × Nat), dget acc "" = none →
      dget (recs.foldl (fun acc p =>
          match regionGetD p.2.region with
          | some c => if c = "" then acc else bump acc c
          | none => acc) acc) "" = none := by
  induction recs with
  | nil => intro acc h; exact h
  | cons p rest ih =>
    intro acc h
    rw [List.foldl_cons]
    cases hr : regionGetD p.2.region with
    | none =>
      simp only [hr]
      exact ih acc h
    | some c =>
      by_cases hc : c = ""
      · subst hc
        simp only [hr, if_true]
        exact ih acc h
      · simp only [hr]
        rw [if_neg hc]
        refine ih (bump acc c) ?_
        unfold bump
        rw [dget_dset_ne _ _ (fun e => hc e.symm)]
        exact h

/-- C1 counterexample: the claim says a School record with absent/empty region
is grouped under `"Unknown"`.  In the code, `record_school_certificate` always
writes the `region` key (as `null` when no region is supplied), and the
`country_counts` loop skips falsy values, so such records are omitted: the
breakdown is empty and carries no `"Unknown"` key at all. -/
theorem claim_C1_counterexample :
    (get_stats (record_school_certificate defaultData "ABC" "Oak"
        none "2024-01-01")).countries = [] ∧
    (get_stats (record_school_certificate defaultData "ABC" "Oak"
        (some "") "2024-01-01")).countries = [] ∧
    dget (get_stats (record_school_certificate defaultData "ABC" "Oak"
        none "2024-01-01")).countries "Unknown" = none := by
  decide

/-- C1 amended: for every persisted ledger state, `stats().countries` maps
each distinct truthy region value `s` (non-null, non-empty, where a record
whose dict lacks the `region` key contributes the sentinel value `"Unknown"`)
to its occurrence count and omits keys with zero occurrences; records whose
stored region is `null` or the empty string are omitted entirely rather than
grouped under `"Unknown"` (and the empty string is never a key).  Records
lacking the `region` key are not producible through
`record_school_certificate`, which always writes the key. -/
theorem claim_C1_amended :
    (∀ (recs : List (String × SchoolRec)) (s : String), s ≠ "" →
      dget (countryCounts recs) s =
        (if regionCount recs s = 0 then none else some (regionCount recs s))) ∧
    (∀ recs : List (String × SchoolRec), dget (countryCounts recs) "" = none) := by
  constructor
  · intro recs s hs
    unfold countryCounts
    rw [countryFold_dget recs [] s hs]
    simp [dget]
  · intro recs
    unfold countryCounts
    exact countryFold_dget_empty recs [] rfl

/-- Witness for C1 (amended): a record whose dict lacks the `region` key is
counted once under the sentinel `"Unknown"`. -/
theorem claim_C1_amended_witness :
    dget (countryCounts [("id1", ⟨"Oak", RegionField.absent, "d1"⟩)]) "Unknown"
      = (if regionCount [("id1", ⟨"Oak", RegionField.absent, "d1"⟩)] "Unknown" = 0
         then none
         else some (regionCount [("id1", ⟨"Oak", RegionField.absent, "d1"⟩)] "Unknown")) :=
  claim_C1_amended.1 _ "Unknown" (by decide)

theorem fixedRegionFold_keys (recs : List (String × SchoolRec)) :
    ∀ acc : List (String × Nat),
      (recs.foldl (fun acc p =>
          match regionGet p.2.region with
          | some region => if (dget acc region).isSome then bump acc region else acc
          | none => acc) acc).map Prod.fst = acc.map Prod.fst := by
  induction recs with
  | nil => intro acc; rfl
  | cons p rest ih =>
    intro acc
    rw [List.foldl_cons]
    cases hr : regionGet p.2.region with
    | none =>
      simp only [hr]
      exact ih acc
    | some region =>
      simp only [hr]
      by_cases hin : (dget acc region).isSome
      · rw [if_pos hin, ih]
        unfold bump
        rw [keys_dset, if_pos hin]
      · rw [if_neg hin]
        exact ih acc

/-- C4: when the stored school total is zero, `region_percentages` reports an
explicit `0` for each of the four fixed regions (in their fixed order) while
`country_percentages` is the empty mapping; when the total is positive,
`country_percentages` maps each key of the country breakdown to
`100 * count / total` rounded to one decimal place (`pctTenths`, in tenths of
a percent). -/
theorem claim_C4 (data : DataDoc) :
    (data.total_school_certificates = 0 →
      (get_stats data).region_percentages
        = [("England", 0), ("Wales", 0), ("Northern Ireland", 0), ("Scotland", 0)] ∧
      (get_stats data).country_percentages = []) ∧
    (0 < data.total_school_certificates →
      (get_stats data).country_percentages
        = (get_stats data).countries.map
            (fun p => (p.1, pctTenths p.2 data.total_school_certificates))) := by
  constructor
  · intro h0
    constructor
    · show (if data.total_school_certificates > 0
          then (fixedRegionCounts data.school_certificates).map
            (fun p => (p.1, pctTenths p.2 data.total_school_certificates))
          else (fixedRegionCounts data.school_certificates).map (fun p => (p.1, 0))) = _
      rw [h0]
      simp only [Nat.lt_irrefl, if_false]
      have hkeys : (fixedRegionCounts data.school_certificates).map Prod.fst
          = regionNames := by
        unfold fixedRegionCounts
        rw [fixedRegionFold_keys]
        simp [regionNames]
      have hzero : (fixedRegionCounts data.school_certificates).map (fun p => (p.1, 0))
          = ((fixedRegionCounts data.school_certificates).map Prod.fst).map
              (fun k => (k, (0 : Nat))) := by
        rw [List.map_map]
        rfl
      rw [hzero, hkeys]
      rfl
    · show (if data.total_school_certificates > 0 then _
          else ([] : List (String × Nat))) = _
      rw [h0]
      simp
  · intro hpos
    show (if data.total_school_certificates > 0
        then (countryCounts data.school_certificates).map
          (fun p => (p.1, pctTenths p.2 data.total_school_certificates))
        else []) = _
    rw [if_pos hpos]
    rfl

/-- Witness for C4: the empty ledger exhibits the zero-total asymmetry, and a
one-record ledger exercises the positive-total percentage formula. -/
theorem claim_C4_witness :
    ((get_stats defaultData).region_percentages
        = [("England", 0), ("Wales", 0), ("Northern Ireland", 0), ("Scotland", 0)] ∧
      (get_stats defaultData).country_percentages = []) ∧
    (get_stats (record_school_certificate defaultData "A" "Oak"
        (some "Wales") "d")).country_percentages
      = (get_stats (record_school_certificate defaultData "A" "Oak"
            (some "Wales") "d")).countries.map
          (fun p => (p.1, pctTenths p.2 (record_school_certificate defaultData "A" "Oak"
            (some "Wales") "d").total_school_certificates)) :=
  ⟨(claim_C4 defaultData).1 rfl,
   (claim_C4 (record_school_certificate defaultData "A" "Oak" (some "Wales") "d")).2
     (by decide)⟩

end CertCreate
